import Mathlib

/-!
Shallow embedding of the Zalo-backup-to-DHT import pipeline (src/main.py)
and verification of its specification claims.

The SQLite tables touched by the importers are modelled as association
lists keyed by primary key; every `INSERT ... ON CONFLICT ...` statement
becomes an `Op` (the row inserted when the key is absent plus the update
applied to the stored row on conflict).  The two importers are modelled as
an interpretation step (pure, may fail, mirroring the Python code that
parses a log line before/while issuing SQL) followed by an application
step; a raised exception skips the per-line commit, so an interpretation
error leaves the store unchanged for that line, exactly as in the source.
-/

namespace ZaloDht

/-- One upsert against a keyed table: `ins` is the row inserted when the key
is absent, `upd` the update applied to the stored row on primary-key
conflict. -/
structure Op (β : Type) where
  ins : β
  upd : β → β

/-- Effect of one upsert on the (optional) row stored at a single key. -/
def applyOp {β : Type} (x : Option β) (o : Op β) : β :=
  match x with
  | none => o.ins
  | some v => o.upd v

/-- Association-list lookup by primary key (first match). -/
def alookup {α β : Type} [DecidableEq α] : List (α × β) → α → Option β
  | [], _ => none
  | (k1, v) :: rest, k => if k = k1 then some v else alookup rest k

/-- `INSERT ... ON CONFLICT ...`: update the stored row when the key
exists, append a fresh row otherwise. -/
def upsertOp {α β : Type} [DecidableEq α] : List (α × β) → α → Op β → List (α × β)
  | [], k, o => [(k, o.ins)]
  | (k1, v) :: rest, k, o =>
    if k = k1 then (k1, o.upd v) :: rest else (k1, v) :: upsertOp rest k o

/-- Run a sequence of keyed upserts against a table. -/
def runOps {α β : Type} [DecidableEq α] (m : List (α × β)) (ops : List (α × Op β)) :
    List (α × β) :=
  ops.foldl (fun acc p => upsertOp acc p.1 p.2) m

/-- The evolution of the row stored at one key across a sequence of upserts
on that key. -/
def keyFold {β : Type} (x : Option β) (l : List (Op β)) : Option β :=
  l.foldl (fun y o => some (applyOp y o)) x

/-- The upserts of a sequence that target a given key. -/
def opsAt {α β : Type} [DecidableEq α] (ops : List (α × Op β)) (k : α) : List (Op β) :=
  (ops.filter (fun p => decide (p.1 = k))).map (fun p => p.2)

/-- Primary keys of a table, in storage order. -/
def tkeys {α β : Type} (m : List (α × β)) : List α :=
  m.map Prod.fst

/-- `ON CONFLICT DO UPDATE SET name = excluded.name`: the update installs
the incoming name and preserves the rest of the row.  `fname` extracts the
overwritten column, `frest` the preserved ones. -/
def OverwriteOps {β γ : Type} (fname : β → String) (frest : β → γ) (l : List (Op β)) :
    Prop :=
  ∀ o ∈ l, ∀ v, fname (o.upd v) = fname o.ins ∧ frest (o.upd v) = frest v

/-- The users-table policy
`name = IIF(name LIKE 'User #%', excluded.name, name)`: replace the stored
name by the incoming one exactly when the stored one matches the
placeholder test `ph`. -/
def PlaceholderOps {β : Type} (ph : β → Bool) (l : List (Op β)) : Prop :=
  ∀ o ∈ l, ∀ v, o.upd v = if ph v then o.ins else v

/-! ### Key scheduler and archive unpacking (`extract_zalo_backup`) -/

/-- `extract_zalo_backup`, key/IV derivation part.  Bytes are `Nat`s.
The hash is passed in as the SHA-256 collaborator (`hashlib.sha256`);
`numSuffixes` is `len(path.suffixes)`.  Source:
`key = sha256(dkey)`; `iv = 16 zero bytes` when the filename has exactly
one suffix, else `iv = b"zie" + dkey[:13]`. -/
def zaloKeyIv (sha256 : List Nat → List Nat) (dkey : List Nat) (numSuffixes : Nat) :
    List Nat × List Nat :=
  (sha256 dkey,
   if numSuffixes = 1 then List.replicate 16 0 else [122, 105, 101] ++ dkey.take 13)

/-- `extract_zalo_backup`, account-id discovery part: the return value is
`os.listdir(output)[0]`, which raises `IndexError` when the extraction
produced no top-level entry and otherwise returns the first entry of the
listing. -/
def extractAccountId (topLevel : List String) : Except String String :=
  match topLevel with
  | [] => .error "IndexError: list index out of range"
  | x :: _ => .ok x

/-! ### String primitives (kernel-computable stand-ins for the Python
string operations used by the source) -/

def listIsPrefix : List Char → List Char → Bool
  | [], _ => true
  | _ :: _, [] => false
  | p :: ps, c :: cs => if p = c then listIsPrefix ps cs else false

/-- `s.startswith(pre)`. -/
def strStartsWith (s pre : String) : Bool :=
  listIsPrefix pre.data s.data

def digitsToNat? : List Char → Option Nat
  | [] => none
  | cs =>
    cs.foldl
      (fun acc c =>
        match acc with
        | none => none
        | some n => if c.isDigit then some (n * 10 + (c.toNat - 48)) else none)
      (some 0)

/-- `int(s)` on a decimal literal with an optional sign; anything else
raises `ValueError` (modelled as `none`). -/
def intOfString? (s : String) : Option Int :=
  match s.data with
  | '-' :: rest => (digitsToNat? rest).map (fun n => -(n : Int))
  | '+' :: rest => (digitsToNat? rest).map (fun n => (n : Int))
  | rest => (digitsToNat? rest).map (fun n => (n : Int))

def charLower (c : Char) : Char :=
  if 65 ≤ c.toNat ∧ c.toNat ≤ 90 then Char.ofNat (c.toNat + 32) else c

/-- `s.lower()` (ASCII range, which covers the file extensions and SQL
patterns the importer handles). -/
def strLower (s : String) : String :=
  ⟨s.data.map charLower⟩

def takeUntilChar (c : Char) : List Char → List Char
  | [] => []
  | x :: xs => if x = c then [] else x :: takeUntilChar c xs

/-- Suffix starting at the first occurrence of `c`, or `none`. -/
def dropFromChar? (c : Char) : List Char → Option (List Char)
  | [] => none
  | x :: xs => if x = c then some (x :: xs) else dropFromChar? c xs

/-! ### Paths (`os.path.join` uses and media path derivation) -/

/-- `os.path.join` over relative components. -/
def pathJoin : List String → String
  | [] => ""
  | [p] => p
  | p :: q :: rest => p ++ "/" ++ pathJoin (q :: rest)

/-- `s.removeprefix("g")`. -/
def stripG (s : String) : String :=
  if strStartsWith s "g" then s.drop 1 else s

/-- Conversation-log path built in `main`:
`os.path.join(path, uid, "ZaloDownloads", "database", f"{uid}_zconversation.zdb")`. -/
def convLogPath (basePath uid : String) : String :=
  pathJoin [basePath, uid, "ZaloDownloads", "database", uid ++ "_zconversation.zdb"]

/-- Message-log path built in `load_zalo_messages`. -/
def msgLogPath (basePath uid : String) : String :=
  pathJoin [basePath, uid, "ZaloDownloads", "database", uid ++ "_zmessage.zdb"]

/-- The media subdirectory for a conversation:
`f"{toUid.removeprefix('g')}{'_group' if toUid.startswith('g') else ''}"`. -/
def pictureDir (toUid : String) : String :=
  stripG toUid ++ (if strStartsWith toUid "g" then "_group" else "")

/-- Expected on-disk media path for an image message
(`saved_image_path` in `load_zalo_messages`). -/
def savedImagePath (basePath uid toUid : String) (msgId : Int)
    (imageHash imageType : String) : String :=
  pathJoin [basePath, uid, "ZaloDownloads", "picture", pictureDir toUid,
    "z" ++ toString msgId ++ "_" ++ imageHash ++ "." ++ imageType]

/-- Remainder after the first `"://"`, or `none` when there is no scheme
separator. -/
def dropThroughSchemeSep : List Char → Option (List Char)
  | ':' :: '/' :: '/' :: rest => some rest
  | [] => none
  | _ :: rest => dropThroughSchemeSep rest

/-- `urlparse(url).path` for the URLs the importer sees: strip the
fragment, the query, and the scheme plus network location. -/
def urlPathOf (u : String) : String :=
  let cs := takeUntilChar '?' (takeUntilChar '#' u.data)
  match dropThroughSchemeSep cs with
  | none => ⟨cs⟩
  | some hostAndPath =>
    match dropFromChar? '/' hostAndPath with
    | none => ""
    | some p => ⟨p⟩

/-- `os.path.basename`: the component after the last slash. -/
def basenameOf (p : String) : String :=
  ⟨(takeUntilChar '/' p.data.reverse).reverse⟩

/-- The extension part of `os.path.splitext`, without its leading dot:
everything after the last dot, unless every character of the stem is
itself a dot (a purely leading dot-run carries no extension). -/
def splitextExtension (name : String) : String :=
  match dropFromChar? '.' name.data.reverse with
  | none => ""
  | some dotted =>
    if (dotted.drop 1).all (fun c => decide (c = '.')) then ""
    else ⟨(takeUntilChar '.' name.data.reverse).reverse⟩

/-- `f"image/{'jpeg' if image_type == 'jpg' else image_type}"`. -/
def imageMime (t : String) : String :=
  "image/" ++ (if t = "jpg" then "jpeg" else t)

/-! ### Target-store model -/

/-- SQLite `LIKE` is ASCII-case-insensitive, so `name LIKE 'User #%'`
tests an ASCII-case-insensitive prefix. -/
def likeUserHash (name : String) : Bool :=
  listIsPrefix "user #".data (strLower name).data

structure ServerRow where
  name : String
  type : String
deriving DecidableEq

structure ChannelRow where
  server : Int
  name : String
deriving DecidableEq

structure MessageRow where
  senderId : Int
  channelId : Int
  text : String
  timestamp : Int
deriving DecidableEq

structure AttachmentRow where
  name : String
  type : String
  normalizedUrl : String
  downloadUrl : String
  size : Nat
  width : Option Int
  height : Option Int
deriving DecidableEq

structure DownloadMetaRow where
  downloadUrl : String
  status : Nat
  type : String
  size : Nat
deriving DecidableEq

/-- The DHT store tables touched by the importer, each keyed by its
primary key.  `users` keeps only the `name` column: the importer writes
`NULL` to every other users column and never updates them on conflict. -/
structure Store where
  servers : List (Int × ServerRow)
  channels : List (Int × ChannelRow)
  users : List (Int × String)
  messages : List (Int × MessageRow)
  attachments : List (Int × AttachmentRow)
  messageAttachments : List (Int × Int)
  messageRepliedTo : List (Int × Int)
  downloadBlobs : List (String × List Nat)
  downloadMetadata : List (String × DownloadMetaRow)
deriving DecidableEq

/-- Primary keys are unique in every table (store invariant of an
initialized DHT database). -/
def Store.WF (s : Store) : Prop :=
  (tkeys s.servers).Nodup ∧ (tkeys s.channels).Nodup ∧ (tkeys s.users).Nodup ∧
  (tkeys s.messages).Nodup ∧ (tkeys s.attachments).Nodup ∧
  (tkeys s.messageAttachments).Nodup ∧ (tkeys s.messageRepliedTo).Nodup ∧
  (tkeys s.downloadBlobs).Nodup ∧ (tkeys s.downloadMetadata).Nodup

instance (s : Store) : Decidable s.WF := by
  unfold Store.WF
  infer_instance

/-- servers: `ON CONFLICT DO UPDATE SET name = excluded.name`
(type column untouched on conflict). -/
def serverNameOp (n t : String) : Op ServerRow :=
  ⟨⟨n, t⟩, fun old => ⟨n, old.type⟩⟩

/-- channels: `ON CONFLICT DO UPDATE SET name = excluded.name`
(server column untouched on conflict). -/
def channelNameOp (sv : Int) (n : String) : Op ChannelRow :=
  ⟨⟨sv, n⟩, fun old => ⟨old.server, n⟩⟩

/-- users: `ON CONFLICT DO UPDATE SET name = IIF(name LIKE 'User #%',
excluded.name, name)`. -/
def userNameOp (n : String) : Op String :=
  ⟨n, fun old => if likeUserHash old then n else old⟩

/-- `ON CONFLICT DO NOTHING`. -/
def keepOp {β : Type} (v : β) : Op β :=
  ⟨v, fun old => old⟩

/-! ### Conversation importer (`load_zalo_conversations`) -/

/-- The optional Index.db collaborator.  `groupName` models the query on
the `group` table, `friendName` the first row of the UNION over `friend`
and `friends_info`. -/
structure NameIndex where
  groupName : String → Option String
  friendName : String → Option String

/-- One parsed line of the conversation log. -/
structure ConvEntry where
  userId : String
deriving DecidableEq

/-- What one conversation log line upserts. -/
structure ConvAction where
  idInt : Int
  name : String
  type : String
deriving DecidableEq

/-- Parse and classify one conversation log line: group ids carry the `g`
marker and are looked up (or fall back to a placeholder); a failing
`int()` raises, aborting the run. -/
def convInterp (idx : Option NameIndex) (e : ConvEntry) : Except String ConvAction :=
  if strStartsWith e.userId "g" then
    match intOfString? (e.userId.drop 1) with
    | none => .error "ValueError: invalid literal for int"
    | some n =>
      let nm :=
        match idx with
        | some ix =>
          match ix.groupName e.userId with
          | some s => s
          | none => "Group #" ++ toString n
        | none => "Group #" ++ toString n
      .ok ⟨n, nm, "GROUP"⟩
  else
    match intOfString? e.userId with
    | none => .error "ValueError: invalid literal for int"
    | some n =>
      let nm :=
        match idx with
        | some ix =>
          match ix.friendName e.userId with
          | some s => s
          | none => "User #" ++ toString n
        | none => "User #" ++ toString n
      .ok ⟨n, nm, "DM"⟩

def convServerOps (a : ConvAction) : List (Int × Op ServerRow) :=
  [(a.idInt, serverNameOp a.name a.type)]

def convChannelOps (a : ConvAction) : List (Int × Op ChannelRow) :=
  [(a.idInt, channelNameOp a.idInt a.name)]

def applyConv (a : ConvAction) (s : Store) : Store :=
  { s with
    servers := runOps s.servers (convServerOps a)
    channels := runOps s.channels (convChannelOps a) }

/-- Stream the conversation log, committing after every line and aborting
on the first raised error with all previous lines already committed. -/
def runConv (idx : Option NameIndex) : List ConvEntry → Store → Store × Option String
  | [], s => (s, none)
  | e :: es, s =>
    match convInterp idx e with
    | .error err => (s, some err)
    | .ok a => runConv idx es (applyConv a s)

/-! ### Message importer (`load_zalo_messages`) -/

/-- Width/height decoded from the payload's `params` JSON string. -/
structure ImgParams where
  width : Option Int
  height : Option Int
deriving DecidableEq

/-- The polymorphic `message` payload: a plain string or a structured
object (fields modelled as present-or-absent). -/
inductive Payload where
  | str (s : String)
  | obj (action : Option String) (title : Option String) (oriUrl : Option String)
      (params : Option ImgParams)
deriving DecidableEq

/-- The optional `quote` sub-object of a message entry.  `fromD` is absent
when the key is missing. -/
structure Quote where
  ownerId : String
  cliMsgId : Int
  fromD : Option String
deriving DecidableEq

/-- One parsed line of the message log. -/
structure MsgEntry where
  cliMsgId : Int
  fromUid : String
  toUid : String
  dName : String
  msgType : Int
  message : Payload
  serverTime : Int
  msgId : Int
  quote : Option Quote
deriving DecidableEq

/-- External collaborators of the message importer: the backup account id,
the extraction directory, the optional name index, MD5 as used for media
filenames, and the local filesystem probe. -/
structure MsgEnv where
  uid : String
  basePath : String
  idx : Option NameIndex
  md5Hex : String → String
  fileExists : String → Bool
  fileSize : String → Nat
  fileBytes : String → List Nat

/-- Effect of the quote-handling block of one entry. -/
structure QuoteAction where
  msgId : Int
  repliedTo : Int
  ownerId : Int
  ownerName : String
deriving DecidableEq

/-- Effect of the type-tag dispatch of one entry. -/
inductive TagAction where
  | textMsg (senderId : Int) (senderName : String) (msgId : Int) (row : MessageRow)
  | imageMsg (msgId : Int) (row : MessageRow) (att : AttachmentRow) (url : String)
      (blob : Option (List Nat))
  | noop
deriving DecidableEq

structure MsgAction where
  quoteAct : Option QuoteAction
  tagAct : TagAction
deriving DecidableEq

/-- Quote handling: the owner id falls back to the account id when the
source marks it with the literal sentinel `"0"`; the owner display name
comes from a truthy `fromD`, else the placeholder.  A failing `int()`
raises. -/
def quoteInterp (uid : String) (msgIdInt : Int) (q : Quote) :
    Except String QuoteAction :=
  match intOfString? (if q.ownerId = "0" then uid else q.ownerId) with
  | none => .error "ValueError: invalid literal for int"
  | some oid =>
    let nm :=
      match q.fromD with
      | some s => if s.isEmpty then "User #" ++ toString oid else s
      | none => "User #" ++ toString oid
    .ok ⟨msgIdInt, q.cliMsgId, oid, nm⟩

/-- Text-like tags (1 and 20): a plain string is the text; a structured
payload yields its `title` when its `action` is `rtf`, the fixed recall
placeholder when the tag is exactly 20, and otherwise raises. -/
def textTagInterp (env : MsgEnv) (e : MsgEntry) : Except String TagAction :=
  let textE : Except String String :=
    match e.message with
    | .str s => .ok s
    | .obj action title _ _ =>
      if action = some "rtf" then
        match title with
        | some t => .ok t
        | none => .error "KeyError: title"
      else if e.msgType = 20 then .ok "[Tin nhắn đã bị thu hồi]"
      else .error "ValueError: do not know how to handle message"
  match textE with
  | .error err => .error err
  | .ok text =>
    let name :=
      if e.dName.isEmpty then
        match env.idx with
        | some ix =>
          match ix.friendName e.fromUid with
          | some s => s
          | none => "User #" ++ e.fromUid
        | none => "User #" ++ e.fromUid
      else e.dName
    match intOfString? e.fromUid, intOfString? (stripG e.toUid) with
    | some sid, some cid =>
      .ok (.textMsg sid name e.cliMsgId ⟨sid, cid, text, e.serverTime⟩)
    | _, _ => .error "ValueError: invalid literal for int"

/-- Image tag (2): probe the deterministic local media path; size is the
on-disk size when the file exists, else 0 with no blob. -/
def imageTagInterp (env : MsgEnv) (e : MsgEntry) : Except String TagAction :=
  match intOfString? e.fromUid, intOfString? (stripG e.toUid) with
  | some sid, some cid =>
    let row : MessageRow := ⟨sid, cid, "", e.serverTime⟩
    match e.message with
    | .str _ => .error "TypeError: string indices must be integers"
    | .obj _ _ oriUrl params =>
      match oriUrl, params with
      | some url, some ps =>
        let iname := basenameOf (urlPathOf url)
        let itype := strLower (splitextExtension iname)
        let ihash := env.md5Hex url
        let ipath := savedImagePath env.basePath env.uid e.toUid e.msgId ihash itype
        let sz := if env.fileExists ipath then env.fileSize ipath else 0
        let blob := if env.fileExists ipath then some (env.fileBytes ipath) else none
        .ok (.imageMsg e.cliMsgId row
          ⟨iname, imageMime itype, url, url, sz, ps.width, ps.height⟩ url blob)
      | _, _ => .error "KeyError: oriUrl or params"
  | _, _ => .error "ValueError: invalid literal for int"

/-- The `match entry["msgType"]` dispatch: tags 1/20 are text-like, tag 2
is an image, every other tag (recognized or not) is a no-op. -/
def msgTagInterp (env : MsgEnv) (e : MsgEntry) : Except String TagAction :=
  if e.msgType = 1 ∨ e.msgType = 20 then textTagInterp env e
  else if e.msgType = 2 then imageTagInterp env e
  else .ok .noop

/-- Interpretation of one message log line: the quote block (when a quote
is present) followed by the tag dispatch.  Any raised error discards the
whole line, since the per-line commit is skipped. -/
def msgInterp (env : MsgEnv) (e : MsgEntry) : Except String MsgAction :=
  match e.quote with
  | none =>
    match msgTagInterp env e with
    | .error err => .error err
    | .ok t => .ok ⟨none, t⟩
  | some q =>
    match quoteInterp env.uid e.cliMsgId q with
    | .error err => .error err
    | .ok qa =>
      match msgTagInterp env e with
      | .error err => .error err
      | .ok t => .ok ⟨some qa, t⟩

def quoteUserOps : Option QuoteAction → List (Int × Op String)
  | none => []
  | some qa => [(qa.ownerId, userNameOp qa.ownerName)]

def quoteReplyOps : Option QuoteAction → List (Int × Op Int)
  | none => []
  | some qa => [(qa.msgId, keepOp qa.repliedTo)]

def tagUserOps : TagAction → List (Int × Op String)
  | .textMsg sid name _ _ => [(sid, userNameOp name)]
  | _ => []

def actionUserOps (a : MsgAction) : List (Int × Op String) :=
  quoteUserOps a.quoteAct ++ tagUserOps a.tagAct

def actionMessageOps (a : MsgAction) : List (Int × Op MessageRow) :=
  match a.tagAct with
  | .textMsg _ _ mid row => [(mid, keepOp row)]
  | .imageMsg mid row _ _ _ => [(mid, keepOp row)]
  | .noop => []

def actionAttachmentOps (a : MsgAction) : List (Int × Op AttachmentRow) :=
  match a.tagAct with
  | .imageMsg mid _ att _ _ => [(mid, keepOp att)]
  | _ => []

def actionLinkOps (a : MsgAction) : List (Int × Op Int) :=
  match a.tagAct with
  | .imageMsg mid _ _ _ _ => [(mid, keepOp mid)]
  | _ => []

/-- `if blob:` — a `None` or empty blob writes no download rows. -/
def actionBlobOps (a : MsgAction) : List (String × Op (List Nat)) :=
  match a.tagAct with
  | .imageMsg _ _ _ url (some bs) => if bs.isEmpty then [] else [(url, keepOp bs)]
  | _ => []

def actionMetaOps (a : MsgAction) : List (String × Op DownloadMetaRow) :=
  match a.tagAct with
  | .imageMsg _ _ att url (some bs) =>
    if bs.isEmpty then [] else [(url, keepOp ⟨url, 200, att.type, att.size⟩)]
  | _ => []

def applyMsg (a : MsgAction) (s : Store) : Store :=
  { s with
    users := runOps s.users (actionUserOps a)
    messages := runOps s.messages (actionMessageOps a)
    attachments := runOps s.attachments (actionAttachmentOps a)
    messageAttachments := runOps s.messageAttachments (actionLinkOps a)
    messageRepliedTo := runOps s.messageRepliedTo (quoteReplyOps a.quoteAct)
    downloadBlobs := runOps s.downloadBlobs (actionBlobOps a)
    downloadMetadata := runOps s.downloadMetadata (actionMetaOps a) }

/-- Stream the message log, committing after every line and aborting on
the first raised error with all previous lines already committed. -/
def runMsgs (env : MsgEnv) : List MsgEntry → Store → Store × Option String
  | [], s => (s, none)
  | e :: es, s =>
    match msgInterp env e with
    | .error err => (s, some err)
    | .ok a => runMsgs env es (applyMsg a s)

/-- `main`: conversations first, then (only when that run raised nothing)
messages, both against the same store and name index. -/
def fullImport (env : MsgEnv) (conv : List ConvEntry) (msgs : List MsgEntry)
    (s : Store) : Store × Option String :=
  match runConv env.idx conv s with
  | (s1, some err) => (s1, some err)
  | (s1, none) => runMsgs env msgs s1

/-! ### Normal form of a run: the executed upserts depend only on the log
(interpretation is state-independent), so a run is a fold of actions. -/

def okConvActs (idx : Option NameIndex) : List ConvEntry → List ConvAction
  | [] => []
  | e :: es =>
    match convInterp idx e with
    | .error _ => []
    | .ok a => a :: okConvActs idx es

def convErrOf (idx : Option NameIndex) : List ConvEntry → Option String
  | [] => none
  | e :: es =>
    match convInterp idx e with
    | .error err => some err
    | .ok _ => convErrOf idx es

def applyConvList (as : List ConvAction) (s : Store) : Store :=
  as.foldl (fun t a => applyConv a t) s

def okMsgActs (env : MsgEnv) : List MsgEntry → List MsgAction
  | [] => []
  | e :: es =>
    match msgInterp env e with
    | .error _ => []
    | .ok a => a :: okMsgActs env es

def msgErrOf (env : MsgEnv) : List MsgEntry → Option String
  | [] => none
  | e :: es =>
    match msgInterp env e with
    | .error err => some err
    | .ok _ => msgErrOf env es

def applyMsgList (as : List MsgAction) (s : Store) : Store :=
  as.foldl (fun t a => applyMsg a t) s

def convListServerOps (as : List ConvAction) : List (Int × Op ServerRow) :=
  (as.map convServerOps).flatten

def convListChannelOps (as : List ConvAction) : List (Int × Op ChannelRow) :=
  (as.map convChannelOps).flatten

def msgListUserOps (as : List MsgAction) : List (Int × Op String) :=
  (as.map actionUserOps).flatten

def msgListMessageOps (as : List MsgAction) : List (Int × Op MessageRow) :=
  (as.map actionMessageOps).flatten

def msgListAttachmentOps (as : List MsgAction) : List (Int × Op AttachmentRow) :=
  (as.map actionAttachmentOps).flatten

def msgListLinkOps (as : List MsgAction) : List (Int × Op Int) :=
  (as.map actionLinkOps).flatten

def msgListReplyOps (as : List MsgAction) : List (Int × Op Int) :=
  (as.map (fun a => quoteReplyOps a.quoteAct)).flatten

def msgListBlobOps (as : List MsgAction) : List (String × Op (List Nat)) :=
  (as.map actionBlobOps).flatten

def msgListMetaOps (as : List MsgAction) : List (String × Op DownloadMetaRow) :=
  (as.map actionMetaOps).flatten

/-- The message actions that actually execute in a full import: none when
the conversation pass aborts. -/
def fullMsgActs (env : MsgEnv) (conv : List ConvEntry) (msgs : List MsgEntry) :
    List MsgAction :=
  match convErrOf env.idx conv with
  | some _ => []
  | none => okMsgActs env msgs

def fullErrOf (env : MsgEnv) (conv : List ConvEntry) (msgs : List MsgEntry) :
    Option String :=
  match convErrOf env.idx conv with
  | some err => some err
  | none => msgErrOf env msgs

/-! ### Shared concrete material for claim instances -/

def emptyStore : Store :=
  ⟨[], [], [], [], [], [], [], [], []⟩

/-- A concrete environment: account id 7, no name index, no media files on
disk. -/
def wEnv : MsgEnv :=
  ⟨"7", "backup", none, fun _ => "abc123", fun _ => false, fun _ => 0, fun _ => []⟩

/-- Modelled from the spec: the log and media locations as the
specification's archive-format section words them, with a `Downloads`
directory component. -/
def specConvLogPath (basePath uid : String) : String :=
  pathJoin [basePath, uid, "Downloads", "database", uid ++ "_zconversation.zdb"]

theorem alookup_upsertOp {α β : Type} [DecidableEq α] (m : List (α × β)) (k1 k : α)
    (o : Op β) :
    alookup (upsertOp m k1 o) k =
      if k = k1 then some (applyOp (alookup m k1) o) else alookup m k := by
  induction m with
  | nil => by_cases h : k = k1 <;> simp [upsertOp, alookup, h, applyOp]
  | cons p rest ih =>
    obtain ⟨k2, v⟩ := p
    by_cases h12 : k1 = k2
    · subst h12
      by_cases h : k = k1 <;> simp [upsertOp, alookup, h, applyOp]
    · by_cases h : k = k2
      · subst h
        have hk1 : ¬ k = k1 := fun he => h12 (he ▸ rfl)
        simp [upsertOp, alookup, h12, hk1]
      · simp [upsertOp, alookup, h12, h, ih]

theorem alookup_runOps {α β : Type} [DecidableEq α] (ops : List (α × Op β))
    (m : List (α × β)) (k : α) :
    alookup (runOps m ops) k = keyFold (alookup m k) (opsAt ops k) := by
  induction ops generalizing m with
  | nil => simp [runOps, keyFold, opsAt]
  | cons p ops ih =>
    obtain ⟨k1, o⟩ := p
    have hstep : runOps m ((k1, o) :: ops) = runOps (upsertOp m k1 o) ops := rfl
    rw [hstep, ih]
    by_cases h : k1 = k
    · subst h
      simp [opsAt, keyFold, alookup_upsertOp]
    · have hk : ¬ k = k1 := fun he => h (he ▸ rfl)
      simp [opsAt, keyFold, alookup_upsertOp, h, hk]

theorem alookup_none_iff {α β : Type} [DecidableEq α] (m : List (α × β)) (k : α) :
    alookup m k = none ↔ k ∉ tkeys m := by
  induction m with
  | nil => simp [alookup, tkeys]
  | cons p rest ih =>
    obtain ⟨k1, v⟩ := p
    by_cases h : k = k1 <;> simp [alookup, tkeys, h, ih]

theorem tkeys_upsertOp {α β : Type} [DecidableEq α] (m : List (α × β)) (k : α) (o : Op β) :
    tkeys (upsertOp m k o) = if k ∈ tkeys m then tkeys m else tkeys m ++ [k] := by
  induction m with
  | nil => simp [upsertOp, tkeys]
  | cons p rest ih =>
    obtain ⟨k1, v⟩ := p
    by_cases h : k = k1
    · subst h
      simp [upsertOp, tkeys]
    · rw [show upsertOp ((k1, v) :: rest) k o = (k1, v) :: upsertOp rest k o from by
        simp [upsertOp, h]]
      rw [show tkeys ((k1, v) :: upsertOp rest k o) = k1 :: tkeys (upsertOp rest k o)
        from rfl]
      rw [show tkeys ((k1, v) :: rest) = k1 :: tkeys rest from rfl, ih]
      by_cases hm : k ∈ tkeys rest
      · rw [if_pos hm, if_pos (List.mem_cons_of_mem k1 hm)]
      · rw [if_neg hm, if_neg (by simp [List.mem_cons, h, hm]), List.cons_append]

theorem mem_tkeys_upsertOp {α β : Type} [DecidableEq α] (m : List (α × β)) (k k2 : α)
    (o : Op β) :
    k2 ∈ tkeys (upsertOp m k o) ↔ k2 ∈ tkeys m ∨ k2 = k := by
  rw [tkeys_upsertOp]
  by_cases h : k ∈ tkeys m
  · rw [if_pos h]
    constructor
    · exact fun hh => Or.inl hh
    · rintro (hh | hh)
      · exact hh
      · exact hh ▸ h
  · rw [if_neg h]
    simp [List.mem_append]

theorem nodup_tkeys_upsertOp {α β : Type} [DecidableEq α] (m : List (α × β)) (k : α)
    (o : Op β) (h : (tkeys m).Nodup) : (tkeys (upsertOp m k o)).Nodup := by
  rw [tkeys_upsertOp]
  by_cases hm : k ∈ tkeys m
  · simpa [hm] using h
  · rw [if_neg hm]
    refine h.append (List.nodup_singleton k) ?_
    intro b hb hbk
    simp at hbk
    exact hm (hbk ▸ hb)

theorem nodup_tkeys_runOps {α β : Type} [DecidableEq α] (ops : List (α × Op β))
    (m : List (α × β)) (h : (tkeys m).Nodup) : (tkeys (runOps m ops)).Nodup := by
  induction ops generalizing m with
  | nil => exact h
  | cons p ops ih =>
    exact ih (upsertOp m p.1 p.2) (nodup_tkeys_upsertOp m p.1 p.2 h)

theorem mem_tkeys_runOps_of_mem {α β : Type} [DecidableEq α] (ops : List (α × Op β))
    (m : List (α × β)) (k : α) (h : k ∈ tkeys m) : k ∈ tkeys (runOps m ops) := by
  induction ops generalizing m with
  | nil => exact h
  | cons p ops ih =>
    exact ih (upsertOp m p.1 p.2) ((mem_tkeys_upsertOp m p.1 k p.2).mpr (Or.inl h))

theorem opkeys_mem_tkeys_runOps {α β : Type} [DecidableEq α] (ops : List (α × Op β))
    (m : List (α × β)) (k : α) (h : k ∈ ops.map Prod.fst) : k ∈ tkeys (runOps m ops) := by
  induction ops generalizing m with
  | nil => simp at h
  | cons p ops ih =>
    rw [List.map_cons, List.mem_cons] at h
    rcases h with h | h
    · exact mem_tkeys_runOps_of_mem ops _ k
        ((mem_tkeys_upsertOp m p.1 k p.2).mpr (Or.inr h))
    · exact ih (upsertOp m p.1 p.2) h

theorem tkeys_runOps_of_covered {α β : Type} [DecidableEq α] (ops : List (α × Op β))
    (m : List (α × β)) (h : ∀ k ∈ ops.map Prod.fst, k ∈ tkeys m) :
    tkeys (runOps m ops) = tkeys m := by
  induction ops generalizing m with
  | nil => rfl
  | cons p ops ih =>
    have hmem : p.1 ∈ tkeys m :=
      h p.1 (List.mem_map_of_mem Prod.fst (List.mem_cons_self p ops))
    have hk : tkeys (upsertOp m p.1 p.2) = tkeys m := by
      rw [tkeys_upsertOp]
      simp [hmem]
    have hstep : runOps m (p :: ops) = runOps (upsertOp m p.1 p.2) ops := rfl
    have hcov : ∀ k ∈ ops.map Prod.fst, k ∈ tkeys (upsertOp m p.1 p.2) := by
      intro k hkk
      rw [hk]
      refine h k ?_
      rw [List.map_cons]
      exact List.mem_cons_of_mem _ hkk
    rw [hstep, ih (upsertOp m p.1 p.2) hcov, hk]

/-- Extensionality for keyed tables: same keys in the same order plus equal
lookups forces equal tables (keys assumed unique, as for a primary key). -/
theorem table_ext {α β : Type} [DecidableEq α] (m1 m2 : List (α × β))
    (hkeys : tkeys m1 = tkeys m2) (hnd : (tkeys m1).Nodup)
    (hlook : ∀ k, alookup m1 k = alookup m2 k) : m1 = m2 := by
  induction m1 generalizing m2 with
  | nil =>
    cases m2 with
    | nil => rfl
    | cons q t2 => simp [tkeys] at hkeys
  | cons p t1 ih =>
    obtain ⟨k, v⟩ := p
    cases m2 with
    | nil => simp [tkeys] at hkeys
    | cons q t2 =>
      obtain ⟨k2, v2⟩ := q
      have hk : k = k2 := by simpa [tkeys] using congrArg (fun l => l.headD k) hkeys
      subst hk
      have hv : v = v2 := by
        have := hlook k
        simpa [alookup] using this
      subst hv
      have hkeys2 : tkeys t1 = tkeys t2 := by
        simpa [tkeys] using hkeys
      have hndc : (k :: tkeys t1).Nodup := hnd
      have hnd2 : (tkeys t1).Nodup := (List.nodup_cons.mp hndc).2
      have hknot : k ∉ tkeys t1 := (List.nodup_cons.mp hndc).1
      refine congrArg (List.cons (k, v)) (ih t2 hkeys2 hnd2 ?_)
      intro k3
      by_cases h3 : k3 = k
      · subst h3
        rw [(alookup_none_iff t1 k3).mpr hknot,
            (alookup_none_iff t2 k3).mpr (hkeys2 ▸ hknot)]
      · have h1 := hlook k3
        simpa [alookup, h3] using h1

/-- Replaying a sequence of upserts is the identity on the table, provided
replaying is the identity on every key value. -/
theorem runOps_replay_of_keyfold {α β : Type} [DecidableEq α] (m : List (α × β))
    (ops : List (α × Op β))
    (hrep : ∀ k x, keyFold (keyFold x (opsAt ops k)) (opsAt ops k) = keyFold x (opsAt ops k))
    (hm : (tkeys m).Nodup) :
    runOps (runOps m ops) ops = runOps m ops := by
  apply table_ext
  · exact tkeys_runOps_of_covered ops (runOps m ops)
      (fun k hk => opkeys_mem_tkeys_runOps ops m k hk)
  · exact nodup_tkeys_runOps ops (runOps m ops) (nodup_tkeys_runOps ops m hm)
  · intro k
    rw [alookup_runOps, alookup_runOps]
    exact hrep k (alookup m k)

theorem mem_opsAt {α β : Type} [DecidableEq α] (ops : List (α × Op β)) (k : α)
    (o : Op β) (h : o ∈ opsAt ops k) : (k, o) ∈ ops := by
  rw [opsAt] at h
  obtain ⟨q, hq, hqo⟩ := List.mem_map.mp h
  obtain ⟨hmem, hfil⟩ := List.mem_filter.mp hq
  have hk : q.1 = k := by simpa using hfil
  obtain ⟨a, b⟩ := q
  cases hk
  cases hqo
  exact hmem

theorem keyFold_eq_none {β : Type} (l : List (Op β)) (x : Option β)
    (h : keyFold x l = none) : x = none ∧ l = [] := by
  cases l with
  | nil => exact ⟨h, rfl⟩
  | cons o rest =>
    exfalso
    have hsome : ∀ (r : List (Op β)) (v : β), (keyFold (some v) r).isSome = true := by
      intro r
      induction r with
      | nil => intro v; rfl
      | cons o2 r2 ih => intro v; exact ih (applyOp (some v) o2)
    have := hsome rest (applyOp x o)
    rw [show keyFold x (o :: rest) = keyFold (some (applyOp x o)) rest from rfl] at h
    rw [h] at this
    simp at this

/-! ### Replay lemmas for the three conflict policies used by the importers -/

/-- `ON CONFLICT DO NOTHING`: replaying any sequence of first-write-wins
upserts on a key is a no-op. -/
theorem keyFold_replay_keep {β : Type} (l : List (Op β))
    (hk : ∀ o ∈ l, ∀ v, o.upd v = v) (x : Option β) :
    keyFold (keyFold x l) l = keyFold x l := by
  have hfix : ∀ (l2 : List (Op β)), (∀ o ∈ l2, ∀ v, o.upd v = v) →
      ∀ v : β, keyFold (some v) l2 = some v := by
    intro l2 hl2
    induction l2 with
    | nil => intro v; rfl
    | cons o rest ih =>
      intro v
      have hstep : keyFold (some v) (o :: rest) = keyFold (some (o.upd v)) rest := rfl
      rw [hstep, hl2 o (List.mem_cons_self o rest) v]
      exact ih (fun o2 h2 => hl2 o2 (List.mem_cons_of_mem o h2)) v
  cases hv : keyFold x l with
  | none =>
    obtain ⟨hx, hl⟩ := keyFold_eq_none l x hv
    rw [hl]
    rfl
  | some v => exact hfix l hk v

theorem keyFold_rest_invariant {β γ : Type} (fname : β → String) (frest : β → γ)
    (l : List (Op β)) (hl : OverwriteOps fname frest l) (v w : β)
    (h : keyFold (some v) l = some w) : frest w = frest v := by
  induction l generalizing v with
  | nil =>
    rw [show keyFold (some v) ([] : List (Op β)) = some v from rfl] at h
    cases h
    rfl
  | cons o rest ih =>
    have hstep : keyFold (some v) (o :: rest) = keyFold (some (o.upd v)) rest := rfl
    rw [hstep] at h
    have h1 := ih (fun o2 h2 => hl o2 (List.mem_cons_of_mem o h2)) (o.upd v) h
    rw [h1, (hl o (List.mem_cons_self o rest) v).2]

theorem keyFold_congr_overwrite {β γ : Type} (fname : β → String) (frest : β → γ)
    (inj : ∀ a b : β, fname a = fname b → frest a = frest b → a = b)
    (l : List (Op β)) (hl : OverwriteOps fname frest l) (a b : β)
    (hr : frest a = frest b) (hnil : l = [] → a = b) :
    keyFold (some a) l = keyFold (some b) l := by
  cases l with
  | nil => rw [hnil rfl]
  | cons o rest =>
    have hab : o.upd a = o.upd b := by
      apply inj
      · rw [(hl o (List.mem_cons_self o rest) a).1, (hl o (List.mem_cons_self o rest) b).1]
      · rw [(hl o (List.mem_cons_self o rest) a).2, (hl o (List.mem_cons_self o rest) b).2, hr]
    have h1 : keyFold (some a) (o :: rest) = keyFold (some (o.upd a)) rest := rfl
    have h2 : keyFold (some b) (o :: rest) = keyFold (some (o.upd b)) rest := rfl
    rw [h1, h2, hab]

theorem keyFold_replay_overwrite {β γ : Type} (fname : β → String) (frest : β → γ)
    (inj : ∀ a b : β, fname a = fname b → frest a = frest b → a = b)
    (l : List (Op β)) (hl : OverwriteOps fname frest l) (x : Option β) :
    keyFold (keyFold x l) l = keyFold x l := by
  cases l with
  | nil => rfl
  | cons o rest =>
    have hstep : keyFold x (o :: rest) = keyFold (some (applyOp x o)) rest := rfl
    have hrest : OverwriteOps fname frest rest :=
      fun o2 h2 => hl o2 (List.mem_cons_of_mem o h2)
    cases hv : keyFold x (o :: rest) with
    | none =>
      obtain ⟨hx, hlnil⟩ := keyFold_eq_none (o :: rest) x hv
      cases hlnil
    | some w =>
      have hw : keyFold (some (applyOp x o)) rest = some w := by rw [← hstep, hv]
      have hstep2 : keyFold (some w) (o :: rest) = keyFold (some (o.upd w)) rest := rfl
      rw [hstep2]
      rw [← hw]
      apply keyFold_congr_overwrite fname frest inj rest hrest
      · have h1 : frest w = frest (applyOp x o) :=
          keyFold_rest_invariant fname frest rest hrest (applyOp x o) w hw
        rw [(hl o (List.mem_cons_self o rest) w).2, h1]
      · intro hnil
        subst hnil
        have hw2 : applyOp x o = w := by
          rw [show keyFold (some (applyOp x o)) ([] : List (Op β)) = some (applyOp x o)
            from rfl] at hw
          cases hw
          rfl
        subst hw2
        apply inj
        · rw [(hl o (List.mem_cons_self o []) (applyOp x o)).1]
          cases x with
          | none => rfl
          | some u => exact ((hl o (List.mem_cons_self o []) u).1).symm ▸ rfl
        · exact (hl o (List.mem_cons_self o []) (applyOp x o)).2

theorem keyFold_fixed_of_not_ph {β : Type} (ph : β → Bool) (l : List (Op β))
    (hl : PlaceholderOps ph l) (v : β) (hv : ph v = false) :
    keyFold (some v) l = some v := by
  induction l with
  | nil => rfl
  | cons o rest ih =>
    have hstep : keyFold (some v) (o :: rest) = keyFold (some (o.upd v)) rest := rfl
    rw [hstep, hl o (List.mem_cons_self o rest) v, hv]
    simp only [Bool.false_eq_true, if_false]
    exact ih (fun o2 h2 => hl o2 (List.mem_cons_of_mem o h2))

theorem keyFold_ph_absorb {β : Type} (ph : β → Bool) (l : List (Op β))
    (hl : PlaceholderOps ph l) (x : Option β) (v : β)
    (hv : keyFold x l = some v) (hph : ph v = true) (hne : l ≠ []) :
    ∀ w, ph w = true → keyFold (some w) l = some v := by
  induction l generalizing x with
  | nil => exact absurd rfl hne
  | cons o rest ih =>
    have hrest : PlaceholderOps ph rest :=
      fun o2 h2 => hl o2 (List.mem_cons_of_mem o h2)
    have hstep : keyFold x (o :: rest) = keyFold (some (applyOp x o)) rest := rfl
    rw [hstep] at hv
    have hins : applyOp x o = o.ins := by
      cases x with
      | none => rfl
      | some u =>
        by_cases hu : ph u = true
        · show o.upd u = o.ins
          rw [hl o (List.mem_cons_self o rest) u, hu]
          simp
        · exfalso
          have hu2 : ph u = false := by
            cases hph2 : ph u
            · rfl
            · exact absurd hph2 hu
          have hfix : applyOp (some u) o = u := by
            show o.upd u = u
            rw [hl o (List.mem_cons_self o rest) u, hu2]
            simp
          rw [hfix] at hv
          rw [keyFold_fixed_of_not_ph ph rest hrest u hu2] at hv
          cases hv
          rw [hph] at hu2
          cases hu2
    intro w hw
    have hstepw : keyFold (some w) (o :: rest) = keyFold (some (applyOp (some w) o)) rest :=
      rfl
    have happw : applyOp (some w) o = o.ins := by
      show o.upd w = o.ins
      rw [hl o (List.mem_cons_self o rest) w, hw]
      simp
    cases hrnil : rest with
    | nil =>
      subst hrnil
      rw [show keyFold (some (applyOp x o)) ([] : List (Op β)) = some (applyOp x o)
        from rfl] at hv
      cases hv
      rw [hstepw, happw, hins]
      rfl
    | cons o2 rest2 =>
      have hrne : rest ≠ [] := by rw [hrnil]; simp
      rw [← hrnil]
      have hphins : ph o.ins = true := by
        by_cases hpi : ph o.ins = true
        · exact hpi
        · exfalso
          have hpi2 : ph o.ins = false := by
            cases hq : ph o.ins
            · rfl
            · exact absurd hq hpi
          rw [hins] at hv
          rw [keyFold_fixed_of_not_ph ph rest hrest o.ins hpi2] at hv
          cases hv
          rw [hph] at hpi2
          cases hpi2
      have := ih hrest (some o.ins) (by rw [← hins]; exact hv) hrne
      rw [hstepw, happw]
      exact this o.ins hphins

theorem keyFold_replay_ph {β : Type} (ph : β → Bool) (l : List (Op β))
    (hl : PlaceholderOps ph l) (x : Option β) :
    keyFold (keyFold x l) l = keyFold x l := by
  cases hv : keyFold x l with
  | none =>
    obtain ⟨hx, hlnil⟩ := keyFold_eq_none l x hv
    subst hlnil
    rfl
  | some v =>
    cases hph : ph v with
    | false => exact keyFold_fixed_of_not_ph ph l hl v hph
    | true =>
      cases hlnil : l with
      | nil =>
        subst hlnil
        rfl
      | cons o rest =>
        rw [← hlnil]
        have hne : l ≠ [] := by rw [hlnil]; simp
        exact keyFold_ph_absorb ph l hl x v hv hph hne v hph

theorem runOps_replay_keep {α β : Type} [DecidableEq α] (m : List (α × β))
    (ops : List (α × Op β)) (hk : ∀ p ∈ ops, ∀ v, (Prod.snd p).upd v = v)
    (hm : (tkeys m).Nodup) : runOps (runOps m ops) ops = runOps m ops := by
  apply runOps_replay_of_keyfold m ops ?_ hm
  intro k x
  apply keyFold_replay_keep
  intro o ho v
  exact hk (k, o) (mem_opsAt ops k o ho) v

theorem runOps_replay_overwrite {α β γ : Type} [DecidableEq α]
    (fname : β → String) (frest : β → γ)
    (inj : ∀ a b : β, fname a = fname b → frest a = frest b → a = b)
    (m : List (α × β)) (ops : List (α × Op β))
    (hov : ∀ p ∈ ops, ∀ v, fname ((Prod.snd p).upd v) = fname (Prod.snd p).ins ∧
      frest ((Prod.snd p).upd v) = frest v)
    (hm : (tkeys m).Nodup) : runOps (runOps m ops) ops = runOps m ops := by
  apply runOps_replay_of_keyfold m ops ?_ hm
  intro k x
  apply keyFold_replay_overwrite fname frest inj
  intro o ho v
  exact hov (k, o) (mem_opsAt ops k o ho) v

theorem runOps_replay_ph {α β : Type} [DecidableEq α] (ph : β → Bool)
    (m : List (α × β)) (ops : List (α × Op β))
    (hph : ∀ p ∈ ops, ∀ v, (Prod.snd p).upd v = if ph v then (Prod.snd p).ins else v)
    (hm : (tkeys m).Nodup) : runOps (runOps m ops) ops = runOps m ops := by
  apply runOps_replay_of_keyfold m ops ?_ hm
  intro k x
  apply keyFold_replay_ph ph
  intro o ho v
  exact hph (k, o) (mem_opsAt ops k o ho) v

theorem runConv_eq (idx : Option NameIndex) (es : List ConvEntry) (s : Store) :
    runConv idx es s = (applyConvList (okConvActs idx es) s, convErrOf idx es) := by
  induction es generalizing s with
  | nil => rfl
  | cons e es ih =>
    cases h : convInterp idx e with
    | error err => simp [runConv, okConvActs, convErrOf, h, applyConvList]
    | ok a => simp [runConv, okConvActs, convErrOf, h, applyConvList, ih]

theorem runMsgs_eq (env : MsgEnv) (es : List MsgEntry) (s : Store) :
    runMsgs env es s = (applyMsgList (okMsgActs env es) s, msgErrOf env es) := by
  induction es generalizing s with
  | nil => rfl
  | cons e es ih =>
    cases h : msgInterp env e with
    | error err => simp [runMsgs, okMsgActs, msgErrOf, h, applyMsgList]
    | ok a => simp [runMsgs, okMsgActs, msgErrOf, h, applyMsgList, ih]

theorem runOps_append {α β : Type} [DecidableEq α] (m : List (α × β))
    (l1 l2 : List (α × Op β)) : runOps m (l1 ++ l2) = runOps (runOps m l1) l2 := by
  simp [runOps, List.foldl_append]

theorem applyConvList_eq (as : List ConvAction) (s : Store) :
    applyConvList as s =
      { s with
        servers := runOps s.servers (convListServerOps as)
        channels := runOps s.channels (convListChannelOps as) } := by
  induction as generalizing s with
  | nil => simp [applyConvList, convListServerOps, convListChannelOps, runOps]
  | cons a as ih =>
    have h1 : applyConvList (a :: as) s = applyConvList as (applyConv a s) := rfl
    rw [h1, ih]
    simp only [applyConv, convListServerOps, convListChannelOps, List.map_cons,
      List.flatten, runOps_append]

theorem applyMsgList_eq (as : List MsgAction) (s : Store) :
    applyMsgList as s =
      { s with
        users := runOps s.users (msgListUserOps as)
        messages := runOps s.messages (msgListMessageOps as)
        attachments := runOps s.attachments (msgListAttachmentOps as)
        messageAttachments := runOps s.messageAttachments (msgListLinkOps as)
        messageRepliedTo := runOps s.messageRepliedTo (msgListReplyOps as)
        downloadBlobs := runOps s.downloadBlobs (msgListBlobOps as)
        downloadMetadata := runOps s.downloadMetadata (msgListMetaOps as) } := by
  induction as generalizing s with
  | nil =>
    simp [applyMsgList, msgListUserOps, msgListMessageOps, msgListAttachmentOps,
      msgListLinkOps, msgListReplyOps, msgListBlobOps, msgListMetaOps, runOps]
  | cons a as ih =>
    have h1 : applyMsgList (a :: as) s = applyMsgList as (applyMsg a s) := rfl
    rw [h1, ih]
    simp only [applyMsg, msgListUserOps, msgListMessageOps, msgListAttachmentOps,
      msgListLinkOps, msgListReplyOps, msgListBlobOps, msgListMetaOps,
      List.map_cons, List.flatten, runOps_append]

theorem fullImport_eq (env : MsgEnv) (conv : List ConvEntry) (msgs : List MsgEntry)
    (s : Store) :
    fullImport env conv msgs s =
      (applyMsgList (fullMsgActs env conv msgs)
        (applyConvList (okConvActs env.idx conv) s),
       fullErrOf env conv msgs) := by
  unfold fullImport
  rw [runConv_eq]
  cases h : convErrOf env.idx conv with
  | some err => simp [fullMsgActs, fullErrOf, h, applyMsgList]
  | none => simp [fullMsgActs, fullErrOf, h, runMsgs_eq]

/-! ### Shapes of the generated upserts, table by table -/

theorem convListServerOps_shape (as : List ConvAction) :
    ∀ p ∈ convListServerOps as, ∀ v : ServerRow,
      ((Prod.snd p).upd v).name = (Prod.snd p).ins.name ∧
      ((Prod.snd p).upd v).type = v.type := by
  intro p hp v
  rw [convListServerOps] at hp
  obtain ⟨l, hl, hpl⟩ := List.mem_flatten.mp hp
  obtain ⟨a, ha, rfl⟩ := List.mem_map.mp hl
  rw [convServerOps, List.mem_singleton] at hpl
  subst hpl
  exact ⟨rfl, rfl⟩

theorem convListChannelOps_shape (as : List ConvAction) :
    ∀ p ∈ convListChannelOps as, ∀ v : ChannelRow,
      ((Prod.snd p).upd v).name = (Prod.snd p).ins.name ∧
      ((Prod.snd p).upd v).server = v.server := by
  intro p hp v
  rw [convListChannelOps] at hp
  obtain ⟨l, hl, hpl⟩ := List.mem_flatten.mp hp
  obtain ⟨a, ha, rfl⟩ := List.mem_map.mp hl
  rw [convChannelOps, List.mem_singleton] at hpl
  subst hpl
  exact ⟨rfl, rfl⟩

theorem msgListUserOps_shape (as : List MsgAction) :
    ∀ p ∈ msgListUserOps as, ∀ v : String,
      (Prod.snd p).upd v = if likeUserHash v then (Prod.snd p).ins else v := by
  intro p hp v
  rw [msgListUserOps] at hp
  obtain ⟨l, hl, hpl⟩ := List.mem_flatten.mp hp
  obtain ⟨a, ha, rfl⟩ := List.mem_map.mp hl
  rw [actionUserOps] at hpl
  rcases List.mem_append.mp hpl with h | h
  · cases hqa : a.quoteAct with
    | none => rw [hqa] at h; simp [quoteUserOps] at h
    | some qa =>
      rw [hqa] at h
      rw [quoteUserOps, List.mem_singleton] at h
      subst h
      rfl
  · cases hta : a.tagAct with
    | textMsg sid nm mid row =>
      rw [hta] at h
      rw [tagUserOps, List.mem_singleton] at h
      subst h
      rfl
    | imageMsg mid row att url blob => rw [hta] at h; simp [tagUserOps] at h
    | noop => rw [hta] at h; simp [tagUserOps] at h

theorem msgListMessageOps_shape (as : List MsgAction) :
    ∀ p ∈ msgListMessageOps as, ∀ v : MessageRow, (Prod.snd p).upd v = v := by
  intro p hp v
  rw [msgListMessageOps] at hp
  obtain ⟨l, hl, hpl⟩ := List.mem_flatten.mp hp
  obtain ⟨a, ha, rfl⟩ := List.mem_map.mp hl
  rw [actionMessageOps] at hpl
  cases hta : a.tagAct with
  | textMsg sid nm mid row =>
    rw [hta] at hpl
    rw [List.mem_singleton] at hpl
    subst hpl
    rfl
  | imageMsg mid row att url blob =>
    rw [hta] at hpl
    rw [List.mem_singleton] at hpl
    subst hpl
    rfl
  | noop => rw [hta] at hpl; simp at hpl

theorem msgListAttachmentOps_shape (as : List MsgAction) :
    ∀ p ∈ msgListAttachmentOps as, ∀ v : AttachmentRow, (Prod.snd p).upd v = v := by
  intro p hp v
  rw [msgListAttachmentOps] at hp
  obtain ⟨l, hl, hpl⟩ := List.mem_flatten.mp hp
  obtain ⟨a, ha, rfl⟩ := List.mem_map.mp hl
  rw [actionAttachmentOps] at hpl
  cases hta : a.tagAct with
  | textMsg sid nm mid row => rw [hta] at hpl; simp at hpl
  | imageMsg mid row att url blob =>
    rw [hta] at hpl
    rw [List.mem_singleton] at hpl
    subst hpl
    rfl
  | noop => rw [hta] at hpl; simp at hpl

theorem msgListLinkOps_shape (as : List MsgAction) :
    ∀ p ∈ msgListLinkOps as, ∀ v : Int, (Prod.snd p).upd v = v := by
  intro p hp v
  rw [msgListLinkOps] at hp
  obtain ⟨l, hl, hpl⟩ := List.mem_flatten.mp hp
  obtain ⟨a, ha, rfl⟩ := List.mem_map.mp hl
  rw [actionLinkOps] at hpl
  cases hta : a.tagAct with
  | textMsg sid nm mid row => rw [hta] at hpl; simp at hpl
  | imageMsg mid row att url blob =>
    rw [hta] at hpl
    rw [List.mem_singleton] at hpl
    subst hpl
    rfl
  | noop => rw [hta] at hpl; simp at hpl

theorem msgListReplyOps_shape (as : List MsgAction) :
    ∀ p ∈ msgListReplyOps as, ∀ v : Int, (Prod.snd p).upd v = v := by
  intro p hp v
  rw [msgListReplyOps] at hp
  obtain ⟨l, hl, hpl⟩ := List.mem_flatten.mp hp
  obtain ⟨a, ha, rfl⟩ := List.mem_map.mp hl
  cases hqa : a.quoteAct with
  | none => rw [hqa] at hpl; simp [quoteReplyOps] at hpl
  | some qa =>
    rw [hqa] at hpl
    rw [quoteReplyOps, List.mem_singleton] at hpl
    subst hpl
    rfl

theorem msgListBlobOps_shape (as : List MsgAction) :
    ∀ p ∈ msgListBlobOps as, ∀ v : List Nat, (Prod.snd p).upd v = v := by
  intro p hp v
  rw [msgListBlobOps] at hp
  obtain ⟨l, hl, hpl⟩ := List.mem_flatten.mp hp
  obtain ⟨a, ha, rfl⟩ := List.mem_map.mp hl
  rw [actionBlobOps] at hpl
  cases hta : a.tagAct with
  | textMsg sid nm mid row => rw [hta] at hpl; simp at hpl
  | noop => rw [hta] at hpl; simp at hpl
  | imageMsg mid row att url blob =>
    rw [hta] at hpl
    cases blob with
    | none => simp at hpl
    | some bs =>
      by_cases hbs : bs.isEmpty
      · simp [hbs] at hpl
      · simp [hbs] at hpl
        subst hpl
        rfl

theorem msgListMetaOps_shape (as : List MsgAction) :
    ∀ p ∈ msgListMetaOps as, ∀ v : DownloadMetaRow, (Prod.snd p).upd v = v := by
  intro p hp v
  rw [msgListMetaOps] at hp
  obtain ⟨l, hl, hpl⟩ := List.mem_flatten.mp hp
  obtain ⟨a, ha, rfl⟩ := List.mem_map.mp hl
  rw [actionMetaOps] at hpl
  cases hta : a.tagAct with
  | textMsg sid nm mid row => rw [hta] at hpl; simp at hpl
  | noop => rw [hta] at hpl; simp at hpl
  | imageMsg mid row att url blob =>
    rw [hta] at hpl
    cases blob with
    | none => simp at hpl
    | some bs =>
      by_cases hbs : bs.isEmpty
      · simp [hbs] at hpl
      · simp [hbs] at hpl
        subst hpl
        rfl

theorem storeExt (s1 s2 : Store)
    (h1 : s1.servers = s2.servers) (h2 : s1.channels = s2.channels)
    (h3 : s1.users = s2.users) (h4 : s1.messages = s2.messages)
    (h5 : s1.attachments = s2.attachments)
    (h6 : s1.messageAttachments = s2.messageAttachments)
    (h7 : s1.messageRepliedTo = s2.messageRepliedTo)
    (h8 : s1.downloadBlobs = s2.downloadBlobs)
    (h9 : s1.downloadMetadata = s2.downloadMetadata) : s1 = s2 := by
  cases s1
  cases s2
  congr 1

theorem serverRow_inj (a b : ServerRow) (h1 : a.name = b.name)
    (h2 : a.type = b.type) : a = b := by
  cases a
  cases b
  congr 1

theorem channelRow_inj (a b : ChannelRow) (h1 : a.name = b.name)
    (h2 : a.server = b.server) : a = b := by
  cases a
  cases b
  congr 1

/-- Core replay property of the full import: the state reached by a second
identical run equals the state of the first run. -/
theorem fullState_replay (env : MsgEnv) (conv : List ConvEntry)
    (msgs : List MsgEntry) (s : Store) (hwf : s.WF) :
    applyMsgList (fullMsgActs env conv msgs)
        (applyConvList (okConvActs env.idx conv)
          (applyMsgList (fullMsgActs env conv msgs)
            (applyConvList (okConvActs env.idx conv) s))) =
      applyMsgList (fullMsgActs env conv msgs)
        (applyConvList (okConvActs env.idx conv) s) := by
  obtain ⟨hsv, hch, hus, hms, hat, hla, hrp, hdb, hdm⟩ := hwf
  simp only [applyMsgList_eq, applyConvList_eq]
  apply storeExt
  · show runOps (runOps s.servers (convListServerOps (okConvActs env.idx conv)))
      (convListServerOps (okConvActs env.idx conv)) = _
    exact runOps_replay_overwrite ServerRow.name ServerRow.type serverRow_inj
      s.servers _ (convListServerOps_shape _) hsv
  · show runOps (runOps s.channels (convListChannelOps (okConvActs env.idx conv)))
      (convListChannelOps (okConvActs env.idx conv)) = _
    exact runOps_replay_overwrite ChannelRow.name ChannelRow.server channelRow_inj
      s.channels _ (convListChannelOps_shape _) hch
  · show runOps (runOps s.users (msgListUserOps (fullMsgActs env conv msgs)))
      (msgListUserOps (fullMsgActs env conv msgs)) = _
    exact runOps_replay_ph likeUserHash s.users _ (msgListUserOps_shape _) hus
  · show runOps (runOps s.messages (msgListMessageOps (fullMsgActs env conv msgs)))
      (msgListMessageOps (fullMsgActs env conv msgs)) = _
    exact runOps_replay_keep s.messages _ (msgListMessageOps_shape _) hms
  · show runOps (runOps s.attachments (msgListAttachmentOps (fullMsgActs env conv msgs)))
      (msgListAttachmentOps (fullMsgActs env conv msgs)) = _
    exact runOps_replay_keep s.attachments _ (msgListAttachmentOps_shape _) hat
  · show runOps (runOps s.messageAttachments (msgListLinkOps (fullMsgActs env conv msgs)))
      (msgListLinkOps (fullMsgActs env conv msgs)) = _
    exact runOps_replay_keep s.messageAttachments _ (msgListLinkOps_shape _) hla
  · show runOps (runOps s.messageRepliedTo (msgListReplyOps (fullMsgActs env conv msgs)))
      (msgListReplyOps (fullMsgActs env conv msgs)) = _
    exact runOps_replay_keep s.messageRepliedTo _ (msgListReplyOps_shape _) hrp
  · show runOps (runOps s.downloadBlobs (msgListBlobOps (fullMsgActs env conv msgs)))
      (msgListBlobOps (fullMsgActs env conv msgs)) = _
    exact runOps_replay_keep s.downloadBlobs _ (msgListBlobOps_shape _) hdb
  · show runOps (runOps s.downloadMetadata (msgListMetaOps (fullMsgActs env conv msgs)))
      (msgListMetaOps (fullMsgActs env conv msgs)) = _
    exact runOps_replay_keep s.downloadMetadata _ (msgListMetaOps_shape _) hdm

theorem applyOp_keep {β : Type} (x : Option β) (r : β) :
    applyOp x (keepOp r) = x.getD r := by
  cases x <;> rfl

theorem keyFold_some_exists {β : Type} (l : List (Op β)) (v : β) :
    ∃ w, keyFold (some v) l = some w := by
  induction l generalizing v with
  | nil => exact ⟨v, rfl⟩
  | cons o rest ih => exact ih (applyOp (some v) o)

/-! ### Claim C1 -/

/-- C1 fails on the code: a server (and channel) already stored under id
999 with the genuine name "Real Name" is overwritten by the placeholder
"Group #999" when the conversation importer replays entry `g999` with no
name index. -/
theorem c1_counterexample :
    (runConv none [⟨"g999"⟩]
        ⟨[(999, ⟨"Real Name", "GROUP"⟩)], [(999, ⟨999, "Real Name"⟩)],
         [], [], [], [], [], [], []⟩).1.servers
      = [(999, ⟨"Group #999", "GROUP"⟩)] ∧
    (runConv none [⟨"g999"⟩]
        ⟨[(999, ⟨"Real Name", "GROUP"⟩)], [(999, ⟨999, "Real Name"⟩)],
         [], [], [], [], [], [], []⟩).1.channels
      = [(999, ⟨999, "Group #999"⟩)] := by
  exact ⟨by decide, by decide⟩

/-- C1 (amended): on a servers/channels primary-key conflict the
conversation importer unconditionally replaces the stored name with the
incoming resolved name, placeholder or not; only the stored `type`
(servers) and `server` (channels) columns are preserved.  No
placeholder check guards the overwrite. -/
theorem c1_conv_name_overwrite (idx : Option NameIndex) (e : ConvEntry)
    (a : ConvAction) (s : Store) (h : convInterp idx e = .ok a) :
    alookup ((runConv idx [e] s).1).servers a.idInt =
      some ⟨a.name, ((alookup s.servers a.idInt).map ServerRow.type).getD a.type⟩ ∧
    alookup ((runConv idx [e] s).1).channels a.idInt =
      some ⟨((alookup s.channels a.idInt).map ChannelRow.server).getD a.idInt,
        a.name⟩ := by
  have h1 : runConv idx [e] s = (applyConv a s, none) := by
    simp [runConv, h]
  rw [h1]
  constructor
  · show alookup (runOps s.servers (convServerOps a)) a.idInt = _
    show alookup (upsertOp s.servers a.idInt (serverNameOp a.name a.type)) a.idInt = _
    rw [alookup_upsertOp, if_pos rfl]
    cases halt : alookup s.servers a.idInt with
    | none => rfl
    | some v => rfl
  · show alookup (runOps s.channels (convChannelOps a)) a.idInt = _
    show alookup (upsertOp s.channels a.idInt (channelNameOp a.idInt a.name)) a.idInt = _
    rw [alookup_upsertOp, if_pos rfl]
    cases halt : alookup s.channels a.idInt with
    | none => rfl
    | some v => rfl

/-- C1 witness: a fresh `g7` conversation entry creates
Server(7, "Group #7", GROUP) and Channel(7, 7, "Group #7"). -/
theorem c1_witness :
    alookup ((runConv none [⟨"g7"⟩] emptyStore).1).servers 7 =
      some ⟨"Group #7", "GROUP"⟩ ∧
    alookup ((runConv none [⟨"g7"⟩] emptyStore).1).channels 7 =
      some ⟨7, "Group #7"⟩ :=
  c1_conv_name_overwrite none ⟨"g7"⟩ ⟨7, "Group #7", "GROUP"⟩ emptyStore rfl

/-! ### Claim C2 -/

/-- C2 fails on the code: a message entry with unrecognized tag 3 but a
non-null quote still creates a MessageReply row (and a User row), because
quote handling runs before the tag dispatch. -/
theorem c2_counterexample :
    (runMsgs ⟨"1", "b", none, fun _ => "", fun _ => false, fun _ => 0, fun _ => []⟩
        [⟨10, "5", "6", "", 3, .str "x", 0, 0, some ⟨"5", 77, none⟩⟩]
        emptyStore).1.messageRepliedTo = [(10, 77)] := by
  decide

/-- C2 (amended): for a message entry whose tag is not 1, 2 or 20 the tag
dispatch is a no-op — no Message, Attachment, MessageAttachment,
DownloadBlob or DownloadMetadata row is created and the dispatch raises
nothing; with a null quote the entry leaves the store completely
unchanged and raises no error.  A non-null quote still runs the quote
handling (MessageReply/User rows; its `int()` can still raise). -/
theorem c2_unrecognized_tag (env : MsgEnv) (e : MsgEntry) (s : Store)
    (h1 : e.msgType ≠ 1) (h2 : e.msgType ≠ 2) (h3 : e.msgType ≠ 20) :
    (e.quote = none → runMsgs env [e] s = (s, none)) ∧
    (∀ a, msgInterp env e = .ok a →
      (runMsgs env [e] s).1.messages = s.messages ∧
      (runMsgs env [e] s).1.attachments = s.attachments ∧
      (runMsgs env [e] s).1.messageAttachments = s.messageAttachments ∧
      (runMsgs env [e] s).1.downloadBlobs = s.downloadBlobs ∧
      (runMsgs env [e] s).1.downloadMetadata = s.downloadMetadata ∧
      (runMsgs env [e] s).2 = none) := by
  have htag : msgTagInterp env e = .ok .noop := by
    rw [msgTagInterp, if_neg ?_, if_neg h2]
    rintro (hh | hh)
    · exact h1 hh
    · exact h3 hh
  have hform : ∀ a, msgInterp env e = .ok a → a.tagAct = .noop := by
    intro a ha
    rw [msgInterp] at ha
    split at ha
    · split at ha
      · cases ha
      · rename_i t heq
        rw [htag] at heq
        cases heq
        cases ha
        rfl
    · split at ha
      · cases ha
      · split at ha
        · cases ha
        · rename_i t heq
          rw [htag] at heq
          cases heq
          cases ha
          rfl
  constructor
  · intro hq
    have hok : msgInterp env e = .ok ⟨none, .noop⟩ := by
      rw [msgInterp, hq, htag]
    show (match msgInterp env e with
      | .error err => (s, some err)
      | .ok a => runMsgs env [] (applyMsg a s)) = (s, none)
    rw [hok]
    rfl
  · intro a ha
    have hrun : runMsgs env [e] s = (applyMsg a s, none) := by
      show (match msgInterp env e with
        | .error err => (s, some err)
        | .ok a2 => runMsgs env [] (applyMsg a2 s)) = (applyMsg a s, none)
      rw [ha]
      rfl
    have hnoop := hform a ha
    rw [hrun]
    refine ⟨?_, ?_, ?_, ?_, ?_, rfl⟩
    · show runOps s.messages (actionMessageOps a) = s.messages
      rw [actionMessageOps, hnoop]
      rfl
    · show runOps s.attachments (actionAttachmentOps a) = s.attachments
      rw [actionAttachmentOps, hnoop]
      rfl
    · show runOps s.messageAttachments (actionLinkOps a) = s.messageAttachments
      rw [actionLinkOps, hnoop]
      rfl
    · show runOps s.downloadBlobs (actionBlobOps a) = s.downloadBlobs
      rw [actionBlobOps, hnoop]
      rfl
    · show runOps s.downloadMetadata (actionMetaOps a) = s.downloadMetadata
      rw [actionMetaOps, hnoop]
      rfl

/-- C2 witness: a quote-free entry with tag 3 (voice message) is a
complete no-op on an empty store. -/
theorem c2_witness :
    runMsgs wEnv [⟨10, "5", "6", "", 3, .str "x", 0, 0, none⟩] emptyStore =
      (emptyStore, none) :=
  (c2_unrecognized_tag wEnv ⟨10, "5", "6", "", 3, .str "x", 0, 0, none⟩ emptyStore
    (by decide) (by decide) (by decide)).1 rfl

/-! ### Claim C3 -/

/-- C3 fails on the code: with a multi-suffix container name and the
one-byte passphrase `p`, the derived IV is `b"zie" + b"p"` — 4 bytes, not
16 — because `dkey[:13]` truncates but nothing zero-pads.  (`AES.new`
then rejects the IV, so decryption crashes instead of running.) -/
theorem c3_counterexample :
    ((zaloKeyIv (fun b => b) [112] 2).2).length = 4 ∧
    ((zaloKeyIv (fun b => b) [112] 2).2).length ≠ 16 := by
  decide

/-- C3 (amended): the key is SHA-256 of the raw passphrase bytes; with
exactly one filename suffix the IV is 16 zero bytes; with any other
suffix count the IV is the 3-byte literal `zie` followed by the first
(up to) 13 passphrase bytes with no padding, so its length is
`3 + min 13 |passphrase|` — exactly 16 only when the passphrase has at
least 13 bytes. -/
theorem c3_key_iv_schedule (sha256 : List Nat → List Nat) (dkey : List Nat)
    (n : Nat) :
    (zaloKeyIv sha256 dkey n).1 = sha256 dkey ∧
    (n = 1 → (zaloKeyIv sha256 dkey n).2 = List.replicate 16 0) ∧
    (n ≠ 1 → (zaloKeyIv sha256 dkey n).2 = [122, 105, 101] ++ dkey.take 13 ∧
      ((zaloKeyIv sha256 dkey n).2).length = 3 + min 13 dkey.length) := by
  refine ⟨rfl, ?_, ?_⟩
  · intro h
    simp [zaloKeyIv, h]
  · intro h
    constructor
    · simp [zaloKeyIv, h]
    · simp [zaloKeyIv, h, List.length_take]
      omega

/-- C3 witness: zero suffixes, one-byte passphrase: IV is `zie` plus that
byte. -/
theorem c3_witness : (zaloKeyIv (fun b => b) [1] 0).2 = [122, 105, 101, 1] :=
  ((c3_key_iv_schedule (fun b => b) [1] 0).2.2 (by decide)).1

/-! ### Claim C4 -/

/-- C4 fails on the code: with two top-level entries `os.listdir(output)[0]`
returns the first entry instead of raising a format error. -/
theorem c4_counterexample : extractAccountId ["a", "b"] = .ok "a" := by
  rfl

/-- C4 (amended): the unpacker returns the first entry of the extraction
output's top-level listing; it fails (with an `IndexError`, not a format
error) exactly when there are zero entries, and performs no check against
more than one top-level entry. -/
theorem c4_first_entry (topLevel : List String) :
    (topLevel = [] →
      extractAccountId topLevel = .error "IndexError: list index out of range") ∧
    (∀ x rest, topLevel = x :: rest → extractAccountId topLevel = .ok x) := by
  constructor
  · intro h
    subst h
    rfl
  · intro x rest h
    subst h
    rfl

/-- C4 witness: a singleton listing yields that entry as the account id. -/
theorem c4_witness : extractAccountId ["12345"] = .ok "12345" :=
  (c4_first_entry ["12345"]).2 "12345" [] rfl

/-! ### Claim C5 -/

/-- C5 fails on the code: the importers read from a `ZaloDownloads`
subtree, not the `Downloads` subtree the claim states. -/
theorem c5_counterexample :
    convLogPath "backup" "12345" ≠ specConvLogPath "backup" "12345" ∧
    convLogPath "backup" "12345" =
      "backup/12345/ZaloDownloads/database/12345_zconversation.zdb" := by
  exact ⟨by decide, by decide⟩

/-- C5 (amended): the fixed subtree is
`<base>/<account>/ZaloDownloads/database/<account>_zconversation.zdb` and
`..._zmessage.zdb`, and the probed local media file is
`<base>/<account>/ZaloDownloads/picture/<channel>[_group]/z<msgId>_<hash>.<ext>`
(hash of the origin URL, extension from it). -/
theorem c5_paths (base uid toUid : String) (msgId : Int) (hsh ext : String) :
    convLogPath base uid =
      base ++ "/" ++ uid ++ "/ZaloDownloads/database/" ++ uid ++
        "_zconversation.zdb" ∧
    msgLogPath base uid =
      base ++ "/" ++ uid ++ "/ZaloDownloads/database/" ++ uid ++ "_zmessage.zdb" ∧
    savedImagePath base uid toUid msgId hsh ext =
      base ++ "/" ++ uid ++ "/ZaloDownloads/picture/" ++ stripG toUid ++
        (if strStartsWith toUid "g" then "_group" else "") ++ "/z" ++
        toString msgId ++ "_" ++ hsh ++ "." ++ ext := by
  refine ⟨?_, ?_, ?_⟩
  · simp only [convLogPath, pathJoin, String.append_assoc]
    rfl
  · simp only [msgLogPath, pathJoin, String.append_assoc]
    rfl
  · simp only [savedImagePath, pathJoin, pictureDir, String.append_assoc]
    rfl

/-! ### Claim C6 -/

/-- C6 (confirmed): on a store whose primary keys are unique, running the
full import (conversations then messages) twice over the same logs, index
and filesystem yields exactly the state and outcome of running it once —
no duplicate rows and no name regressions. -/
theorem c6_import_idempotent (env : MsgEnv) (conv : List ConvEntry)
    (msgs : List MsgEntry) (s : Store) (hwf : s.WF) :
    fullImport env conv msgs (fullImport env conv msgs s).1 =
      fullImport env conv msgs s := by
  rw [fullImport_eq env conv msgs s, fullImport_eq]
  exact congrArg (fun st => (st, fullErrOf env conv msgs))
    (fullState_replay env conv msgs s hwf)

/-- C6 witness: a two-line import (one group conversation, one text
message with a quote) replayed on the empty store. -/
theorem c6_witness :
    fullImport wEnv [⟨"g9"⟩] [⟨1, "5", "g9", "", 1, .str "m", 10, 0,
        some ⟨"0", 3, none⟩⟩]
      (fullImport wEnv [⟨"g9"⟩] [⟨1, "5", "g9", "", 1, .str "m", 10, 0,
        some ⟨"0", 3, none⟩⟩] emptyStore).1 =
    fullImport wEnv [⟨"g9"⟩] [⟨1, "5", "g9", "", 1, .str "m", 10, 0,
        some ⟨"0", 3, none⟩⟩] emptyStore :=
  c6_import_idempotent wEnv [⟨"g9"⟩] [⟨1, "5", "g9", "", 1, .str "m", 10, 0,
    some ⟨"0", 3, none⟩⟩] emptyStore (by decide)

/-! ### Claim C7 -/

/-- C7 (confirmed): for a text-like entry (tag 1 or 20) whose payload is a
structured object: an `rtf` action makes the message text the object's
title; otherwise tag 20 yields the fixed recall placeholder; otherwise
(tag 1, any other structured shape) the importer raises and the store —
in particular the messages table — is left untouched for the entry. -/
theorem c7_structured_dispatch (env : MsgEnv) (e : MsgEntry)
    (action title u : Option String) (ps : Option ImgParams)
    (hm : e.message = .obj action title u ps)
    (htag : e.msgType = 1 ∨ e.msgType = 20) :
    (∀ t, action = some "rtf" → title = some t →
      ∀ ta, msgTagInterp env e = .ok ta →
        ∃ sid nm cid, ta = .textMsg sid nm e.cliMsgId ⟨sid, cid, t, e.serverTime⟩) ∧
    (action ≠ some "rtf" → e.msgType = 20 →
      ∀ ta, msgTagInterp env e = .ok ta →
        ∃ sid nm cid, ta = .textMsg sid nm e.cliMsgId
          ⟨sid, cid, "[Tin nhắn đã bị thu hồi]", e.serverTime⟩) ∧
    (action ≠ some "rtf" → e.msgType = 1 →
      (∃ err, msgTagInterp env e = .error err) ∧
      ∀ s, (runMsgs env [e] s).1 = s) := by
  have hTI : msgTagInterp env e = textTagInterp env e := by
    rw [msgTagInterp, if_pos htag]
  refine ⟨?_, ?_, ?_⟩
  · intro t ha ht ta hta
    rw [hTI] at hta
    simp only [textTagInterp] at hta
    split at hta
    · rename_i err heq
      rw [hm, ha, ht] at heq
      simp at heq
    · rename_i text heq
      rw [hm, ha, ht] at heq
      simp at heq
      split at hta
      · rename_i sid cid hsid hcid
        cases hta
        exact ⟨sid, _, cid, by rw [heq]⟩
      · cases hta
  · intro hne h20 ta hta
    rw [hTI] at hta
    simp only [textTagInterp] at hta
    split at hta
    · rename_i err heq
      rw [hm] at heq
      simp [hne, h20] at heq
    · rename_i text heq
      rw [hm] at heq
      simp [hne, h20] at heq
      split at hta
      · rename_i sid cid hsid hcid
        cases hta
        exact ⟨sid, _, cid, by rw [heq]⟩
      · cases hta
  · intro hne h1
    have herr : ∃ err, msgTagInterp env e = .error err := by
      rw [hTI]
      simp only [textTagInterp]
      rw [hm]
      have h120 : e.msgType ≠ 20 := by
        rw [h1]
        decide
      simp [hne, h120]
    refine ⟨herr, ?_⟩
    intro s
    obtain ⟨err, he⟩ := herr
    have hmsgerr : ∃ err2, msgInterp env e = .error err2 := by
      cases hmi : msgInterp env e with
      | error err2 => exact ⟨err2, rfl⟩
      | ok a =>
        exfalso
        rw [msgInterp] at hmi
        split at hmi
        · split at hmi
          · cases hmi
          · rename_i t heq
            rw [he] at heq
            cases heq
        · split at hmi
          · cases hmi
          · split at hmi
            · cases hmi
            · rename_i t heq
              rw [he] at heq
              cases heq
    obtain ⟨err2, he2⟩ := hmsgerr
    show (match msgInterp env e with
      | .error err3 => (s, some err3)
      | .ok a => runMsgs env [] (applyMsg a s)).1 = s
    rw [he2]

/-- C7 witness: a tag-1 entry with an `rtf` payload carrying title `T`
produces a Message row whose text is `T`. -/
theorem c7_witness :
    ∃ sid nm cid, TagAction.textMsg 3 "User #3" 5 ⟨3, 4, "T", 9⟩ =
      TagAction.textMsg sid nm 5 ⟨sid, cid, "T", 9⟩ :=
  (c7_structured_dispatch wEnv
      ⟨5, "3", "4", "", 1, .obj (some "rtf") (some "T") none none, 9, 0, none⟩
      (some "rtf") (some "T") none none rfl (Or.inl rfl)).1 "T" rfl rfl
    (TagAction.textMsg 3 "User #3" 5 ⟨3, 4, "T", 9⟩) rfl

/-! ### Claim C8 -/

/-- C8 (confirmed): an entry with a non-null quote resolves the quoted
owner to the account id when the quote's ownerId is the sentinel "0" and
to the ownerId otherwise, upserts a User row for that owner, and inserts
the MessageReply(message_id, replied_to_id) row as an idempotent no-op (a
pre-existing row is kept unchanged); an entry with a null quote leaves
the message_replied_to table untouched. -/
theorem c8_reply_linkage (env : MsgEnv) (e : MsgEntry) (a : MsgAction) (s : Store)
    (h : msgInterp env e = .ok a) :
    (e.quote = none →
      (runMsgs env [e] s).1.messageRepliedTo = s.messageRepliedTo) ∧
    (∀ q, e.quote = some q → ∃ qa, a.quoteAct = some qa ∧
      intOfString? (if q.ownerId = "0" then env.uid else q.ownerId) =
        some qa.ownerId ∧
      alookup (runMsgs env [e] s).1.users qa.ownerId ≠ none ∧
      alookup (runMsgs env [e] s).1.messageRepliedTo e.cliMsgId =
        some ((alookup s.messageRepliedTo e.cliMsgId).getD q.cliMsgId)) := by
  have hrun : runMsgs env [e] s = (applyMsg a s, none) := by
    show (match msgInterp env e with
      | .error err => (s, some err)
      | .ok a2 => runMsgs env [] (applyMsg a2 s)) = (applyMsg a s, none)
    rw [h]
    rfl
  have hcase : (e.quote = none ∧ a.quoteAct = none) ∨
      (∃ q qa, e.quote = some q ∧ a.quoteAct = some qa ∧
        quoteInterp env.uid e.cliMsgId q = .ok qa) := by
    rw [msgInterp] at h
    split at h
    · rename_i hq0
      split at h
      · cases h
      · cases h
        exact Or.inl ⟨hq0, rfl⟩
    · rename_i q hq0
      split at h
      · cases h
      · rename_i qa hqa0
        split at h
        · cases h
        · cases h
          exact Or.inr ⟨q, qa, hq0, rfl, hqa0⟩
  constructor
  · intro hq
    rcases hcase with ⟨hq0, hqa⟩ | ⟨q, qa, hq0, hqa, hqi⟩
    · rw [hrun]
      show runOps s.messageRepliedTo (quoteReplyOps a.quoteAct) = s.messageRepliedTo
      rw [hqa]
      rfl
    · rw [hq0] at hq
      cases hq
  · intro q hq
    rcases hcase with ⟨hq0, hqa⟩ | ⟨q2, qa, hq0, hqa, hqi⟩
    · rw [hq0] at hq
      cases hq
    · rw [hq0] at hq
      injection hq with hq
      subst hq
      rw [quoteInterp] at hqi
      split at hqi
      · cases hqi
      · rename_i oid ho
        injection hqi with h3
        have hown : qa.ownerId = oid := by rw [← h3]
        have hmsg : qa.msgId = e.cliMsgId := by rw [← h3]
        have hrep : qa.repliedTo = q2.cliMsgId := by rw [← h3]
        refine ⟨qa, hqa, ?_, ?_, ?_⟩
        · rw [hown]
          exact ho
        · rw [hrun]
          show alookup (runOps s.users (actionUserOps a)) qa.ownerId ≠ none
          rw [actionUserOps, hqa]
          simp only [quoteUserOps]
          rw [runOps_append, alookup_runOps]
          have hsome : alookup (runOps s.users
              [(qa.ownerId, userNameOp qa.ownerName)]) qa.ownerId =
              some (applyOp (alookup s.users qa.ownerId)
                (userNameOp qa.ownerName)) := by
            show alookup (upsertOp s.users qa.ownerId
              (userNameOp qa.ownerName)) qa.ownerId = _
            rw [alookup_upsertOp, if_pos rfl]
          rw [hsome]
          obtain ⟨w, hw⟩ := keyFold_some_exists
            (opsAt (tagUserOps a.tagAct) qa.ownerId)
            (applyOp (alookup s.users qa.ownerId) (userNameOp qa.ownerName))
          rw [hw]
          simp
        · rw [hrun]
          show alookup (runOps s.messageRepliedTo
            (quoteReplyOps a.quoteAct)) e.cliMsgId = _
          rw [hqa]
          simp only [quoteReplyOps]
          show alookup (upsertOp s.messageRepliedTo qa.msgId
            (keepOp qa.repliedTo)) e.cliMsgId = _
          rw [hmsg, hrep, alookup_upsertOp, if_pos rfl, applyOp_keep]

/-- C8 witness: a quote with sentinel owner "0" on account 7 links
message 1 to quoted message 42 and creates User 7. -/
theorem c8_witness :
    alookup (runMsgs wEnv [⟨1, "5", "6", "", 3, .str "x", 0, 0,
        some ⟨"0", 42, some "Q"⟩⟩] emptyStore).1.messageRepliedTo 1 = some 42 := by
  have h := (c8_reply_linkage wEnv
      ⟨1, "5", "6", "", 3, .str "x", 0, 0, some ⟨"0", 42, some "Q"⟩⟩
      ⟨some ⟨1, 42, 7, "Q"⟩, .noop⟩ emptyStore rfl).2 ⟨"0", 42, some "Q"⟩ rfl
  obtain ⟨qa, hqa, ho, hu, hr⟩ := h
  exact hr

/-! ### Claim C9 -/

/-- C9 (confirmed): an image entry (tag 2) whose derived local media path
does not exist still upserts the empty-text Message row, a complete
Attachment row with size 0 (name, MIME type and URLs derived from the
origin URL, width/height from the params), and the MessageAttachment
link, while inserting no DownloadBlob and no DownloadMetadata row. -/
theorem c9_missing_media (env : MsgEnv) (e : MsgEntry) (s : Store) (a : MsgAction)
    (act ti : Option String) (url : String) (ps : ImgParams) (sid cid : Int)
    (h2 : e.msgType = 2) (hm : e.message = .obj act ti (some url) (some ps))
    (hsid : intOfString? e.fromUid = some sid)
    (hcid : intOfString? (stripG e.toUid) = some cid)
    (hmiss : env.fileExists (savedImagePath env.basePath env.uid e.toUid e.msgId
      (env.md5Hex url)
      (strLower (splitextExtension (basenameOf (urlPathOf url))))) = false)
    (h : msgInterp env e = .ok a) :
    (runMsgs env [e] s).1.messages =
      upsertOp s.messages e.cliMsgId (keepOp ⟨sid, cid, "", e.serverTime⟩) ∧
    (runMsgs env [e] s).1.attachments =
      upsertOp s.attachments e.cliMsgId (keepOp ⟨basenameOf (urlPathOf url),
        imageMime (strLower (splitextExtension (basenameOf (urlPathOf url)))),
        url, url, 0, ps.width, ps.height⟩) ∧
    (runMsgs env [e] s).1.messageAttachments =
      upsertOp s.messageAttachments e.cliMsgId (keepOp e.cliMsgId) ∧
    (runMsgs env [e] s).1.downloadBlobs = s.downloadBlobs ∧
    (runMsgs env [e] s).1.downloadMetadata = s.downloadMetadata := by
  have hne : ¬ (e.msgType = 1 ∨ e.msgType = 20) := by
    rw [h2]
    decide
  have htag : msgTagInterp env e = .ok (.imageMsg e.cliMsgId
      ⟨sid, cid, "", e.serverTime⟩
      ⟨basenameOf (urlPathOf url),
        imageMime (strLower (splitextExtension (basenameOf (urlPathOf url)))),
        url, url, 0, ps.width, ps.height⟩ url none) := by
    rw [msgTagInterp, if_neg hne, if_pos h2]
    simp only [imageTagInterp, hsid, hcid, hm, hmiss]
    rfl
  have htagAct : a.tagAct = .imageMsg e.cliMsgId ⟨sid, cid, "", e.serverTime⟩
      ⟨basenameOf (urlPathOf url),
        imageMime (strLower (splitextExtension (basenameOf (urlPathOf url)))),
        url, url, 0, ps.width, ps.height⟩ url none := by
    rw [msgInterp] at h
    split at h
    · split at h
      · cases h
      · rename_i t heq
        rw [htag] at heq
        cases heq
        cases h
        rfl
    · split at h
      · cases h
      · split at h
        · cases h
        · rename_i t heq
          rw [htag] at heq
          cases heq
          cases h
          rfl
  have hrun : runMsgs env [e] s = (applyMsg a s, none) := by
    show (match msgInterp env e with
      | .error err => (s, some err)
      | .ok a2 => runMsgs env [] (applyMsg a2 s)) = (applyMsg a s, none)
    rw [h]
    rfl
  rw [hrun]
  refine ⟨?_, ?_, ?_, ?_, ?_⟩
  · show runOps s.messages (actionMessageOps a) = _
    rw [actionMessageOps, htagAct]
    rfl
  · show runOps s.attachments (actionAttachmentOps a) = _
    rw [actionAttachmentOps, htagAct]
    rfl
  · show runOps s.messageAttachments (actionLinkOps a) = _
    rw [actionLinkOps, htagAct]
    rfl
  · show runOps s.downloadBlobs (actionBlobOps a) = _
    rw [actionBlobOps, htagAct]
    rfl
  · show runOps s.downloadMetadata (actionMetaOps a) = _
    rw [actionMetaOps, htagAct]
    rfl

/-- C9 witness: a tag-2 entry whose JPG is absent from disk yields an
Attachment row with size 0, normalized MIME type, and both URLs equal to
the origin URL. -/
theorem c9_witness :
    (runMsgs wEnv [⟨2, "5", "g9", "", 2,
        .obj none none (some "http://h/p/img.JPG") (some ⟨some 10, some 20⟩),
        50, 77, none⟩] emptyStore).1.attachments =
      [(2, ⟨"img.JPG", "image/jpeg", "http://h/p/img.JPG",
        "http://h/p/img.JPG", 0, some 10, some 20⟩)] := by
  have h := c9_missing_media wEnv
    ⟨2, "5", "g9", "", 2,
      .obj none none (some "http://h/p/img.JPG") (some ⟨some 10, some 20⟩),
      50, 77, none⟩ emptyStore
    ⟨none, .imageMsg 2 ⟨5, 9, "", 50⟩
      ⟨"img.JPG", "image/jpeg", "http://h/p/img.JPG", "http://h/p/img.JPG", 0,
        some 10, some 20⟩ "http://h/p/img.JPG" none⟩
    none none "http://h/p/img.JPG" ⟨some 10, some 20⟩ 5 9
    rfl rfl rfl rfl rfl rfl
  exact h.2.1

/-! ### Claim C10 -/

/-- C10's biconditional fails on the code: SQLite's LIKE is
ASCII-case-insensitive, so the stored name "user #9 custom" — which does
not begin with the characters "User #" — is still replaced by the
incoming name. -/
theorem c10_counterexample :
    listIsPrefix "User #".data "user #9 custom".data = false ∧
    (runMsgs ⟨"1", "b", none, fun _ => "", fun _ => false, fun _ => 0, fun _ => []⟩
        [⟨1, "5", "6", "Alice", 1, .str "hi", 0, 0, none⟩]
        ⟨[], [], [(5, "user #9 custom")], [], [], [], [], [], []⟩).1.users
      = [(5, "Alice")] := by
  exact ⟨by decide, by decide⟩

/-- C10 (amended): the user-name upsert decides replaceability purely by
the SQL pattern `LIKE 'User #%'`, an ASCII-case-insensitive prefix test:
on a users primary-key conflict the stored name is replaced by the
incoming name exactly when it starts (case-insensitively) with "user #",
regardless of whether the suffix matches the row's id — so a genuine
display name matching the pattern is overwritten by a later import. -/
theorem c10_user_upsert (env : MsgEnv) (e : MsgEntry) (s : Store) (sid cid : Int)
    (stored t : String)
    (h1 : e.msgType = 1) (hstr : e.message = .str t) (hd : e.dName.isEmpty = false)
    (hq : e.quote = none) (hsid : intOfString? e.fromUid = some sid)
    (hcid : intOfString? (stripG e.toUid) = some cid)
    (hst : alookup s.users sid = some stored) :
    alookup (runMsgs env [e] s).1.users sid =
      some (if likeUserHash stored then e.dName else stored) := by
  have htag : msgTagInterp env e =
      .ok (.textMsg sid e.dName e.cliMsgId ⟨sid, cid, t, e.serverTime⟩) := by
    rw [msgTagInterp, if_pos (Or.inl h1)]
    simp only [textTagInterp, hstr, hd, hsid, hcid]
    rfl
  have hok : msgInterp env e =
      .ok ⟨none, .textMsg sid e.dName e.cliMsgId ⟨sid, cid, t, e.serverTime⟩⟩ := by
    rw [msgInterp, hq, htag]
  have hrun : runMsgs env [e] s =
      (applyMsg ⟨none, .textMsg sid e.dName e.cliMsgId
        ⟨sid, cid, t, e.serverTime⟩⟩ s, none) := by
    show (match msgInterp env e with
      | .error err => (s, some err)
      | .ok a2 => runMsgs env [] (applyMsg a2 s)) = _
    rw [hok]
    rfl
  rw [hrun]
  show alookup (runOps s.users [(sid, userNameOp e.dName)]) sid = _
  show alookup (upsertOp s.users sid (userNameOp e.dName)) sid = _
  rw [alookup_upsertOp, if_pos rfl, hst]
  rfl

/-- C10 witness: the stored name "User #77 (old)" under id 5 — its suffix
does not match the id — is still replaced by the incoming "Bob". -/
theorem c10_witness :
    alookup (runMsgs wEnv [⟨3, "5", "6", "Bob", 1, .str "hi", 8, 0, none⟩]
        ⟨[], [], [(5, "User #77 (old)")], [], [], [], [], [], []⟩).1.users 5 =
      some "Bob" :=
  c10_user_upsert wEnv ⟨3, "5", "6", "Bob", 1, .str "hi", 8, 0, none⟩
    ⟨[], [], [(5, "User #77 (old)")], [], [], [], [], [], []⟩ 5 6
    "User #77 (old)" "hi" rfl rfl rfl rfl rfl rfl rfl

end ZaloDht

